import Mathlib

/-!
Verification of the Triddle form-builder backend core: the Form / Question /
Response data model and the controller operations (form CRUD and publishing,
question deletion with order compaction, response sessions with answer upsert,
and analytics aggregation), shallowly embedded from the JavaScript source
(`src/controllers/*.js` against the Prisma schema).  The relational store is a
record of entity lists; each controller is a pure function from the store (plus
the request inputs and fresh identifiers standing for generated uuids) to an
updated store and response payload.  Timestamps are naturals supplied by the
caller; a `now` field on the store records the time of the last operation so
that clock monotonicity can be stated.
-/

/-- Error taxonomy of the HTTP layer: 404, 400, 403. -/
inductive Err where
  | notFound
  | badRequest
  | forbidden
deriving DecidableEq, Repr

/-- `conditional_rules` row (schema.prisma): operator, literal value, target
question and action. -/
structure ConditionalRule where
  targetQuestionId : String
  operator : String
  value : Option String
  action : String
deriving DecidableEq, Repr

/-- `conditional_logic` row with its owned rules (1–1 with its question, so it
is embedded in the question record). -/
structure ConditionalLogic where
  enabled : Bool
  rules : List ConditionalRule
deriving DecidableEq, Repr

/-- The `{min, max, pattern}` validation payload stored in the question's
JSON `validation` column. -/
structure Validation where
  min : Option Int
  max : Option Int
  pattern : Option String
deriving DecidableEq, Repr

/-- `questions` row.  `options` abstracts the JSON options blob. -/
structure Question where
  id : String
  formId : String
  title : String
  description : Option String
  qType : String
  isRequired : Bool
  options : Option String
  order : Int
  validation : Option Validation
  logic : Option ConditionalLogic
deriving DecidableEq, Repr

/-- `forms` row. -/
structure Form where
  id : String
  title : String
  description : Option String
  isPublished : Bool
  userId : String
deriving DecidableEq, Repr

/-- `responses` row. -/
structure Response where
  id : String
  formId : String
  respondentId : String
  isCompleted : Bool
  startedAt : Nat
  completedAt : Option Nat
deriving DecidableEq, Repr

/-- `answers` row. -/
structure Answer where
  id : String
  questionId : String
  responseId : String
  value : Option String
  fileUrl : Option String
deriving DecidableEq, Repr

/-- `form_visits` row. -/
structure FormVisit where
  formId : String
  visitedAt : Nat
  ipAddress : Option String
  userAgent : Option String
  referrer : Option String
deriving DecidableEq, Repr

/-- The relational store.  `now` is the time of the last applied operation
(used only to state clock monotonicity for temporal invariants). -/
structure DB where
  forms : List Form
  questions : List Question
  responses : List Response
  answers : List Answer
  visits : List FormVisit
  now : Nat
deriving DecidableEq, Repr

/-- The questions of one form (`where: { formId }`). -/
def questionsOf (db : DB) (fid : String) : List Question :=
  db.questions.filter (fun q => q.formId == fid)

/-- Comparison used by every `orderBy: { order: 'asc' }` query. -/
def qle (a b : Question) : Prop := a.order ≤ b.order

instance : DecidableRel qle := fun a b => inferInstanceAs (Decidable (a.order ≤ b.order))

instance : IsTotal Question qle := ⟨fun a b => Int.le_total a.order b.order⟩

instance : IsTrans Question qle := ⟨fun _ _ _ h₁ h₂ => le_trans h₁ h₂⟩

/-- `orderBy: { order: 'asc' }`. -/
def sortByOrder (l : List Question) : List Question := List.insertionSort qle l

/-- The stored answers of one (response, question) pair. -/
def answersFor (db : DB) (rid qid : String) : List Answer :=
  db.answers.filter (fun a => a.responseId == rid && a.questionId == qid)

/-- `_count.answers` of a question: all stored answers referencing it. -/
def answerCount (db : DB) (qid : String) : Nat :=
  (db.answers.filter (fun a => a.questionId == qid)).length

/-! ## Response controller (`response.controller.js`) -/

/-- Payload of a successful `startResponse` (the response id / respondent id
pair plus the form summary's question count and first question). -/
structure StartResult where
  responseId : String
  respondentId : String
  questionCount : Nat
  firstQuestion : Option Question
deriving DecidableEq, Repr

/-- `startResponse`: finds the form by `{ id, isPublished: true }` (404
otherwise), creates a `Response` with a fresh respondent uuid (`rid`, `rpid`
stand for the generated uuids) and returns the first question of the
order-ascending question list, or null when the form has none. -/
def startResponse (db : DB) (t : Nat) (formId rid rpid : String) :
    Except Err (DB × StartResult) :=
  match db.forms.find? (fun f => f.id == formId && f.isPublished) with
  | none => .error .notFound
  | some form =>
    let qs := sortByOrder (questionsOf db form.id)
    let response : Response :=
      { id := rid, formId := formId, respondentId := rpid,
        isCompleted := false, startedAt := t, completedAt := none }
    .ok ({ db with responses := db.responses ++ [response], now := t },
         { responseId := rid, respondentId := rpid, questionCount := qs.length,
           firstQuestion := if qs.length > 0 then qs.head? else none })

/-- Payload of a successful `submitAnswer`. -/
structure SubmitResult where
  answer : Answer
  nextQuestion : Option Question
  isLastQuestion : Bool
deriving DecidableEq, Repr

/-- `submitAnswer`: 404 unless the response exists and the question is among
the response's form's questions; upserts the answer for the
(response, question) pair (update in place when one exists, else create with
fresh id `aid`); the next question is the entry after the current one's index
in the order-ascending list; when the current index is the last, the response
is marked completed with `completedAt` set to the current time `t`. -/
def submitAnswer (db : DB) (t : Nat) (responseId questionId : String)
    (value fileUrl : Option String) (aid : String) :
    Except Err (DB × SubmitResult) :=
  match db.responses.find? (fun r => r.id == responseId) with
  | none => .error .notFound
  | some response =>
    let qs := sortByOrder (questionsOf db response.formId)
    match qs.find? (fun q => q.id == questionId) with
    | none => .error .notFound
    | some _ =>
      let upserted : List Answer × Answer :=
        match db.answers.find?
            (fun a => a.responseId == responseId && a.questionId == questionId) with
        | some ex =>
          (db.answers.map (fun a =>
             if a.id == ex.id then { a with value := value, fileUrl := fileUrl } else a),
           { ex with value := value, fileUrl := fileUrl })
        | none =>
          let na : Answer :=
            { id := aid, questionId := questionId, responseId := responseId,
              value := value, fileUrl := fileUrl }
          (db.answers ++ [na], na)
      let idx := qs.findIdx (fun q => q.id == questionId)
      let nextQuestion := if idx < qs.length - 1 then qs.get? (idx + 1) else none
      let isLast := idx == qs.length - 1
      let responses' :=
        if isLast then
          db.responses.map (fun r =>
            if r.id == responseId then
              { r with isCompleted := true, completedAt := some t }
            else r)
        else db.responses
      .ok ({ db with responses := responses', answers := upserted.1, now := t },
           { answer := upserted.2, nextQuestion := nextQuestion, isLastQuestion := isLast })

/-- One formatted answer of `getResponse`'s payload:
(questionId, value, fileUrl). -/
abbrev FormattedAnswer := String × Option String × Option String

/-- Payload of a successful `getResponse`. -/
structure ResponseDetail where
  id : String
  respondentId : String
  formTitle : String
  isCompleted : Bool
  startedAt : Nat
  completedAt : Option Nat
  answers : List FormattedAnswer
deriving DecidableEq, Repr

/-- `getResponse`: 400 when the query carries no respondent id, 404 unless a
response matches both the id and the respondent id (the capability check),
else the response metadata with its answers. -/
def getResponse (db : DB) (i : String) (rp : Option String) :
    Except Err ResponseDetail :=
  match rp with
  | none => .error .badRequest
  | some rpid =>
    match db.responses.find? (fun r => r.id == i && r.respondentId == rpid) with
    | none => .error .notFound
    | some r =>
      .ok { id := r.id, respondentId := r.respondentId,
            formTitle := ((db.forms.find? (fun f => f.id == r.formId)).map
              (fun f => f.title)).getD "",
            isCompleted := r.isCompleted, startedAt := r.startedAt,
            completedAt := r.completedAt,
            answers := (db.answers.filter (fun a => a.responseId == r.id)).map
              (fun a => (a.questionId, a.value, a.fileUrl)) }

/-! ## Form controller (`form.controller.js`) -/

/-- Body of `createForm` (theme and settings are plumbing the claims do not
touch and are left out of the model). -/
structure CreateFormPayload where
  title : String
  description : Option String
  isPublished : Option Bool
deriving DecidableEq, Repr

/-- `createForm`: creates the form for the authenticated user with
`isPublished: isPublished || false`; no questions are created. -/
def createForm (db : DB) (uid : String) (p : CreateFormPayload) (freshId : String) :
    DB × Form :=
  let f : Form :=
    { id := freshId, title := p.title, description := p.description,
      isPublished := p.isPublished.getD false, userId := uid }
  ({ db with forms := db.forms ++ [f] }, f)

/-- `publishForm`: 404 unless the form exists and belongs to the user, 400
when it has zero questions, else sets `isPublished := true`. -/
def publishForm (db : DB) (uid fid : String) : Except Err (DB × Form) :=
  match db.forms.find? (fun f => f.id == fid && f.userId == uid) with
  | none => .error .notFound
  | some form =>
    if (questionsOf db fid).length == 0 then .error .badRequest
    else
      .ok ({ db with forms := db.forms.map (fun f =>
               if f.id == fid then { f with isPublished := true } else f) },
           { form with isPublished := true })

/-- Incoming conditional rule of an `updateForm` question entry
(`rule.questionId` is the target question). -/
structure RulePayload where
  questionId : String
  operator : String
  value : Option String
  action : String
deriving DecidableEq, Repr

/-- Incoming conditional-logic object of an `updateForm` question entry. -/
structure LogicPayload where
  enabled : Bool
  rules : Option (List RulePayload)
deriving DecidableEq, Repr

/-- One entry of `updateForm`'s `questions` array. -/
structure QuestionPayload where
  id : Option String
  qType : String
  title : String
  description : Option String
  isRequired : Option Bool
  options : Option String
  order : Int
  validation : Option Validation
  conditionalLogic : Option LogicPayload
deriving DecidableEq, Repr

/-- Body of `updateForm`. -/
structure FormUpdatePayload where
  title : Option String
  description : Option String
  isPublished : Option Bool
  questions : Option (List QuestionPayload)
deriving DecidableEq, Repr

/-- A stored rule from an incoming one. -/
def toRule (rp : RulePayload) : ConditionalRule :=
  { targetQuestionId := rp.questionId, operator := rp.operator,
    value := rp.value, action := rp.action }

/-- The question types whose `options` blob is stored
(`['multipleChoice', 'checkboxes', 'dropdown']`). -/
def choiceTypes : List String := ["multipleChoice", "checkboxes", "dropdown"]

/-- `updateForm`'s conditional-logic reconciliation for one question: update
the enabled flag and fully replace the rules when enabled, disable and delete
all rules when an existing logic row is disabled, create when enabled with no
existing row, and leave the stored state alone otherwise. -/
def reconLogic (old : Option ConditionalLogic) (lp : Option LogicPayload) :
    Option ConditionalLogic :=
  match lp with
  | none => old
  | some lp =>
    match old with
    | some _ =>
      if lp.enabled then some { enabled := lp.enabled, rules := (lp.rules.getD []).map toRule }
      else some { enabled := false, rules := [] }
    | none =>
      if lp.enabled then some { enabled := true, rules := (lp.rules.getD []).map toRule }
      else old

/-- The update branch of `updateForm`'s question loop applied to the matched
question: overwrite the scalar columns, overwrite `options` only for
choice-like types with options supplied, then reconcile conditional logic. -/
def applyUpdate (q : Question) (p : QuestionPayload) : Question :=
  { q with qType := p.qType, title := p.title,
           description := p.description.orElse (fun _ => q.description),
           isRequired := p.isRequired.getD q.isRequired,
           order := p.order, validation := p.validation,
           options := if choiceTypes.contains p.qType && p.options.isSome then
               p.options
             else q.options,
           logic := reconLogic q.logic p.conditionalLogic }

/-- The create branch of `updateForm`'s question loop: a new question scoped
to the form with the supplied fields (fresh uuid `nid`). -/
def createFromPayload (fid nid : String) (p : QuestionPayload) : Question :=
  { id := nid, formId := fid, title := p.title, description := p.description,
    qType := p.qType, isRequired := p.isRequired.getD false,
    options := if choiceTypes.contains p.qType then p.options else none,
    order := p.order, validation := p.validation,
    logic := match p.conditionalLogic with
      | some lp =>
        if lp.enabled then some { enabled := true, rules := (lp.rules.getD []).map toRule }
        else none
      | none => none }

/-- `updateForm`'s question loop: an entry whose id starts with `question-`
and is longer than 9 characters is an update (skipped when no stored question
has that id), anything else is a create consuming a fresh uuid. -/
def processQuestions (fid : String) (qps : List QuestionPayload)
    (fresh : List String) (l : List Question) : List Question :=
  match qps with
  | [] => l
  | p :: rest =>
    match p.id with
    | some pid =>
      if pid.startsWith "question-" && pid.length > 9 then
        match l.find? (fun q => q.id == pid) with
        | none => processQuestions fid rest fresh l
        | some _ =>
          processQuestions fid rest fresh
            (l.map (fun q => if q.id == pid then applyUpdate q p else q))
      else
        processQuestions fid rest fresh.tail
          (l ++ [createFromPayload fid (fresh.headD "") p])
    | none =>
      processQuestions fid rest fresh.tail
        (l ++ [createFromPayload fid (fresh.headD "") p])

/-- The incoming batch's kept identifiers:
`questions.map(q => q.id).filter(id => id && id.startsWith('question-'))`. -/
def keptIds (qps : List QuestionPayload) : List String :=
  (qps.filterMap (fun p => p.id)).filter (fun i => i.startsWith "question-")

/-- The final `deleteMany` of `updateForm`: when the batch carries at least
one kept id, delete every question of the form whose id is not among them. -/
def deleteStale (fid : String) (qps : List QuestionPayload) (l : List Question) :
    List Question :=
  if (keptIds qps).length > 0 then
    l.filter (fun q => !(q.formId == fid) || (keptIds qps).contains q.id)
  else l

/-- `updateForm`: 404 unless the form exists and belongs to the user; updates
the form's scalar fields with `isPublished: isPublished || false`; when the
body carries a `questions` array, runs the reconciliation loop followed by the
stale-question `deleteMany`; returns the reloaded form row. -/
def updateForm (db : DB) (uid fid : String) (p : FormUpdatePayload)
    (fresh : List String) : Except Err (DB × Option Form) :=
  match db.forms.find? (fun f => f.id == fid && f.userId == uid) with
  | none => .error .notFound
  | some _ =>
    let forms' := db.forms.map (fun f =>
      if f.id == fid then
        { f with title := p.title.getD f.title,
                 description := p.description.orElse (fun _ => f.description),
                 isPublished := p.isPublished.getD false }
      else f)
    let questions' :=
      match p.questions with
      | none => db.questions
      | some qps => deleteStale fid qps (processQuestions fid qps fresh db.questions)
    .ok ({ db with forms := forms', questions := questions' },
         forms'.find? (fun f => f.id == fid))

/-! ## Question controller (`question.controller.js`) -/

/-- One step of `deleteQuestion`'s reorder loop: the question with the given
id gets order `base + i`. -/
def bump (base : Int) (i : Nat) (tid : String) (x : Question) : Question :=
  if x.id == tid then { x with order := base + i } else x

/-- `deleteQuestion`'s reorder loop over the remaining questions (ascending
order): the entry at loop index `i` gets order `base + i` where `base` is the
deleted question's order. -/
def setOrdersFrom (base : Int) (i : Nat) (rem l : List Question) : List Question :=
  match rem with
  | [] => l
  | q :: t => setOrdersFrom base (i + 1) t (l.map (bump base i q.id))

/-- `deleteQuestion`: 404 unless the form belongs to the user and the question
belongs to the form; deletes the question, then walks the remaining questions
of the form with greater order (ascending) setting each order to the deleted
order plus the loop index. -/
def deleteQuestion (db : DB) (uid fid qid : String) : Except Err DB :=
  match db.forms.find? (fun f => f.id == fid && f.userId == uid) with
  | none => .error .notFound
  | some _ =>
    match db.questions.find? (fun q => q.id == qid && q.formId == fid) with
    | none => .error .notFound
    | some ex =>
      let qs1 := db.questions.filter (fun q => !(q.id == qid))
      let remaining :=
        sortByOrder (qs1.filter (fun q => q.formId == fid && ex.order < q.order))
      .ok { db with questions := setOrdersFrom ex.order 0 remaining qs1 }

/-! ## Analytics (`getFormAnalytics`) -/

/-- Per-question analytics entry. -/
structure QuestionStats where
  id : String
  title : String
  qType : String
  responses : Nat
  dropoffRate : ℚ
deriving DecidableEq, Repr

/-- `getFormAnalytics`'s payload. -/
structure Analytics where
  visits : Nat
  responses : Nat
  completionRate : ℚ
  questions : List QuestionStats
deriving DecidableEq, Repr

/-- `Math.round(x * 100) / 100` on exact rationals: JavaScript's
`Math.round` is floor of the argument plus one half. -/
def roundTo2 (x : ℚ) : ℚ := ((⌊x * 100 + 1 / 2⌋ : ℤ) : ℚ) / 100

/-- `getFormAnalytics`: 404 unless the form belongs to the user; counts
visits and responses, computes the completion rate (0 on zero responses,
else completed over total times 100, rounded to two decimals), and for each
question in ascending order its answer count and drop-off rate against the
first question's answer count (0 when that count is zero). -/
def getFormAnalytics (db : DB) (uid fid : String) : Except Err Analytics :=
  match db.forms.find? (fun f => f.id == fid && f.userId == uid) with
  | none => .error .notFound
  | some _ =>
    let visitsCount := (db.visits.filter (fun v => v.formId == fid)).length
    let rs := db.responses.filter (fun r => r.formId == fid)
    let completed := (rs.filter (fun r => r.isCompleted)).length
    let completionRate : ℚ :=
      if rs.length > 0 then ((completed : ℚ) / (rs.length : ℚ)) * 100 else 0
    let qs := sortByOrder (questionsOf db fid)
    let questionsWithDropoff :=
      match qs with
      | [] => []
      | q0 :: _ =>
        let firstCount := answerCount db q0.id
        qs.map (fun q =>
          { id := q.id, title := q.title, qType := q.qType,
            responses := answerCount db q.id,
            dropoffRate :=
              if firstCount > 0 then
                (((firstCount : ℚ) - (answerCount db q.id : ℚ)) / (firstCount : ℚ)) * 100
              else 0 : QuestionStats })
    .ok { visits := visitsCount, responses := rs.length,
          completionRate := roundTo2 completionRate,
          questions := questionsWithDropoff }

/-! ## Conditional Logic Engine (spec §4.1)

The backend stores conditional logic and ships it to the client, but no
evaluation function exists in the repository's source; the engine below is the
reference against which the navigation claims are compared. -/

/-- Modelled from the spec: one rule evaluates
`answer(rule.targetQuestionId) <operator> rule.value`; an unanswered target
makes the rule not satisfied; operators are `equals` and `notEquals`, anything
else does not satisfy. -/
def evalRule (ans : String → Option String) (r : ConditionalRule) : Bool :=
  match ans r.targetQuestionId with
  | none => false
  | some v =>
    match r.operator with
    | "equals" => (some v) == r.value
    | "notEquals" => !((some v) == r.value)
    | _ => false

/-- Modelled from the spec: a question with no logic or disabled logic is
visible; enabled logic shows the question only when all rules are satisfied
(AND semantics, vacuously visible on an empty rule set). -/
def isVisible (ans : String → Option String) (q : Question) : Bool :=
  match q.logic with
  | none => true
  | some l => if l.enabled then l.rules.all (fun r => evalRule ans r) else true

/-- Modelled from the spec: the next question after the current order is the
first question of the order-ascending list with strictly greater order that
the engine marks visible. -/
def specNextQuestion (qs : List Question) (ans : String → Option String)
    (currentOrder : Int) : Option Question :=
  (qs.filter (fun q => currentOrder < q.order)).find? (fun q => isVisible ans q)

/-- Modelled from the spec: the first question of the ordered list that the
engine marks visible given the answers so far. -/
def specFirstQuestion (qs : List Question) (ans : String → Option String) :
    Option Question :=
  qs.find? (fun q => isVisible ans q)

/-- The answers-so-far map of a response after submitting `v` for `qid`:
the submitted value for `qid`, else the stored answer's value. -/
def answersMapAfter (db : DB) (rid qid : String) (v : Option String) :
    String → Option String :=
  fun tqid =>
    if tqid == qid then v
    else
      match db.answers.find? (fun a => a.responseId == rid && a.questionId == tqid) with
      | some a => a.value
      | none => none

/-- The empty answers-so-far map. -/
def emptyAns : String → Option String := fun _ => none

/-- The question immediately following the (first) question with the given id
in a list, if any. -/
def nextAfter (l : List Question) (qid : String) : Option Question :=
  match l with
  | [] => none
  | q :: t => if q.id == qid then t.head? else nextAfter t qid

/-! ## Reachability through the response session operations -/

/-- `startResponse` as a total transition (an error leaves the store
unchanged). -/
def startStep (db : DB) (t : Nat) (fid rid rpid : String) : DB :=
  match startResponse db t fid rid rpid with
  | .ok (db', _) => db'
  | .error _ => db

/-- `submitAnswer` as a total transition (an error leaves the store
unchanged). -/
def submitStep (db : DB) (t : Nat) (rid qid : String) (v f : Option String)
    (aid : String) : DB :=
  match submitAnswer db t rid qid v f aid with
  | .ok (db', _) => db'
  | .error _ => db

/-- Stores reachable through the response session state machine: any store
with no responses and no answers (the forms and questions are authored by the
owner-side operations), followed by `startResponse` / `submitAnswer` steps at
nondecreasing times. -/
inductive Reach : DB → Prop
  | init (forms : List Form) (questions : List Question) (visits : List FormVisit)
      (t : Nat) :
      Reach { forms := forms, questions := questions, responses := [],
              answers := [], visits := visits, now := t }
  | start (db : DB) (t : Nat) (fid rid rpid : String) :
      Reach db → db.now ≤ t → Reach (startStep db t fid rid rpid)
  | submit (db : DB) (t : Nat) (rid qid : String) (v f : Option String)
      (aid : String) :
      Reach db → db.now ≤ t → Reach (submitStep db t rid qid v f aid)

/-! ## Concrete stores used by counterexamples and witnesses -/

/-- The empty store. -/
def dbEmpty : DB := ⟨[], [], [], [], [], 0⟩

/-- Scenario form of spec §8: Q1 (order 0, no logic). -/
def c1q1 : Question := ⟨"q1", "f1", "Q1", none, "text", false, none, 0, none, none⟩

/-- Scenario form of spec §8: Q2 (order 1, show if Q1 equals "yes"). -/
def c1q2 : Question := ⟨"q2", "f1", "Q2", none, "text", false, none, 1, none,
  some ⟨true, [⟨"q1", "equals", some "yes", "show"⟩]⟩⟩

/-- Scenario form of spec §8: Q3 (order 2, no logic). -/
def c1q3 : Question := ⟨"q3", "f1", "Q3", none, "text", false, none, 2, none, none⟩

/-- Store holding the published scenario form and one in-progress response. -/
def c1db : DB := ⟨[⟨"f1", "F", none, true, "u1"⟩], [c1q1, c1q2, c1q3],
  [⟨"r1", "f1", "rp1", false, 0, none⟩], [], [], 0⟩

/-- A published form whose first question carries enabled logic targeting the
(not yet answerable) second question. -/
def c2q1 : Question := ⟨"q1", "f2", "Q1", none, "text", false, none, 0, none,
  some ⟨true, [⟨"q2", "equals", some "x", "show"⟩]⟩⟩

/-- Second question of the `c2db` form (order 1, no logic). -/
def c2q2 : Question := ⟨"q2", "f2", "Q2", none, "text", false, none, 1, none, none⟩

/-- Store holding the published form whose order-0 question is not visible
under the engine given empty answers. -/
def c2db : DB := ⟨[⟨"f2", "F2", none, true, "u1"⟩], [c2q1, c2q2], [], [], [], 0⟩

/-- A persisted question of form `f3` (its id carries the persisted
`question-` prefix). -/
def c3q : Question :=
  ⟨"question-ABCDEF", "f3", "Old", none, "text", false, none, 0, none, none⟩

/-- Store holding form `f3` with the one persisted question. -/
def c3db : DB := ⟨[⟨"f3", "F3", none, false, "u1"⟩], [c3q], [], [], [], 0⟩

/-- A `questions` batch holding a single create entry (no entry recognized
as an update). -/
def c3qps : List QuestionPayload := [⟨none, "text", "New", none, none, none, 1, none, none⟩]

/-- An `updateForm` body carrying the create-only batch. -/
def c3payload : FormUpdatePayload := ⟨some "F3", none, none, some c3qps⟩

/-! ## C1: next question after an answer -/

/-- C1 counterexample.  The claim: on the spec-§8 scenario form [Q1 order 0 no
logic, Q2 order 1 show-if Q1="yes", Q3 order 2 no logic],
SubmitAnswer(Q1,"no") returns nextQuestion=Q3 (the Conditional Logic Engine
skips Q2).  The code returns Q2: `submitAnswer` advances purely by index in
the order-ascending list and never consults conditional logic, while the
engine's next visible question is Q3. -/
theorem c1_counterexample :
    ((submitAnswer c1db 1 "r1" "q1" (some "no") none "a1").toOption.map
      (fun p => p.2.nextQuestion.map (fun q => q.id))) = some (some "q2") ∧
    (specNextQuestion (sortByOrder (questionsOf c1db "f1"))
      (answersMapAfter c1db "r1" "q1" (some "no")) 0).map (fun q => q.id) =
      some "q3" ∧
    ("q2" : String) ≠ "q3" := by
  refine ⟨by decide, by decide, by decide⟩

/-- The element after the first one matching an id, through `findIdx` /
`get?`: what `submitAnswer`'s index arithmetic computes. -/
theorem nextAfter_eq_get (l : List Question) (qid : String)
    (h : l.findIdx (fun q => q.id == qid) < l.length) :
    l.get? (l.findIdx (fun q => q.id == qid) + 1) = nextAfter l qid := by
  induction l with
  | nil => simp at h
  | cons a t ih =>
    by_cases ha : a.id == qid
    · simp [List.findIdx_cons, ha, nextAfter, List.head?_eq_getElem?]
    · simp only [List.findIdx_cons, ha, cond_false, List.length_cons,
        Nat.add_lt_add_iff_right] at h
      simp only [List.findIdx_cons, ha, cond_false, nextAfter, if_neg
        (by simpa using ha)]
      exact ih h

/-- The guard `idx < length - 1` is redundant: out of range, `get?` is
already `none`. -/
theorem cond_next_eq_get (l : List Question) (idx : Nat) (h : idx < l.length) :
    (if idx < l.length - 1 then l.get? (idx + 1) else none) = l.get? (idx + 1) := by
  split
  · rfl
  · rw [eq_comm, List.get?_eq_none]
    omega

/-- C1 amended: on a successful `submitAnswer`, the returned `nextQuestion`
is the question immediately following the answered one in the form's
order-ascending question list — conditional logic is never consulted, so no
question is skipped — or null when the answered question is last, and
`isLastQuestion` is true exactly when `nextQuestion` is null. -/
theorem c1_amended (db : DB) (t : Nat) (rid qid : String) (v f : Option String)
    (aid : String) (db' : DB) (res : SubmitResult) (r : Response)
    (hok : submitAnswer db t rid qid v f aid = .ok (db', res))
    (hr : db.responses.find? (fun x => x.id == rid) = some r) :
    res.nextQuestion = nextAfter (sortByOrder (questionsOf db r.formId)) qid ∧
    (res.isLastQuestion = true ↔ res.nextQuestion = none) := by
  unfold submitAnswer at hok
  rw [hr] at hok
  dsimp only at hok
  set qs := sortByOrder (questionsOf db r.formId) with hqs
  cases hq : qs.find? (fun q => q.id == qid) with
  | none => rw [hq] at hok; exact absurd hok (by simp)
  | some q0 =>
    rw [hq] at hok
    simp only [Except.ok.injEq, Prod.mk.injEq] at hok
    obtain ⟨-, hres⟩ := hok
    have hpq := List.find?_some hq
    have hmq : q0 ∈ qs := List.mem_of_find?_eq_some hq
    have hlt : qs.findIdx (fun q => q.id == qid) < qs.length :=
      List.findIdx_lt_length_of_exists ⟨q0, hmq, hpq⟩
    subst hres
    constructor
    · show (if _ < qs.length - 1 then qs.get? _ else none) = _
      rw [cond_next_eq_get qs _ hlt, nextAfter_eq_get qs qid hlt]
    · show ((qs.findIdx (fun q => q.id == qid)) == qs.length - 1) = true ↔
        (if _ < qs.length - 1 then qs.get? _ else none) = none
      rw [cond_next_eq_get qs _ hlt, List.get?_eq_none, beq_iff_eq]
      omega

/-- The `c1db` response row, as `submitAnswer` finds it. -/
def c1resp : Response := ⟨"r1", "f1", "rp1", false, 0, none⟩

/-- The store after the witness `submitAnswer` call on `c1db`. -/
def c1dbAfter : DB :=
  ((submitAnswer c1db 1 "r1" "q1" (some "no") none "a1").toOption.map Prod.fst).getD dbEmpty

/-- The payload of the witness `submitAnswer` call on `c1db`. -/
def c1res : SubmitResult :=
  ((submitAnswer c1db 1 "r1" "q1" (some "no") none "a1").toOption.map Prod.snd).getD
    ⟨⟨"", "", "", none, none⟩, none, false⟩

/-- C1 witness: the amended statement at the spec-§8 scenario form,
SubmitAnswer(Q1,"no"). -/
theorem c1_witness :
    c1res.nextQuestion = nextAfter (sortByOrder (questionsOf c1db "f1")) "q1" ∧
    (c1res.isLastQuestion = true ↔ c1res.nextQuestion = none) :=
  c1_amended c1db 1 "r1" "q1" (some "no") none "a1" c1dbAfter c1res c1resp
    (by rfl) (by decide)

/-! ## C2: starting a response session -/

/-- C2 counterexample.  The claim: `startResponse` returns as first question
the first question the Conditional Logic Engine marks visible given empty
answers.  On a published form whose order-0 question carries enabled logic
referencing the unanswered second question, the engine's first visible
question is Q2, but the code returns Q1: it always returns the head of the
order-ascending list. -/
theorem c2_counterexample :
    ((startResponse c2db 0 "f2" "r9" "rp9").toOption.map
      (fun p => p.2.firstQuestion.map (fun q => q.id))) = some (some "q1") ∧
    (specFirstQuestion (sortByOrder (questionsOf c2db "f2")) emptyAns).map
      (fun q => q.id) = some "q2" ∧
    ("q1" : String) ≠ "q2" := ⟨by decide, by decide, by decide⟩

/-- C2 amended: `startResponse` succeeds exactly when a form with the given
id exists and is published (404 otherwise); on success it stores a response
with `isCompleted = false`, the supplied fresh respondent identifier and the
call time as `startedAt`, and returns as first question simply the head of
the order-ascending question list (null when the form has no questions) —
conditional logic is not consulted. -/
theorem c2_amended (db : DB) (t : Nat) (fid rid rpid : String) :
    ((startResponse db t fid rid rpid).isOk = true ↔
      ∃ fm ∈ db.forms, fm.id = fid ∧ fm.isPublished = true) ∧
    (∀ db' res, startResponse db t fid rid rpid = .ok (db', res) →
      ({ id := rid, formId := fid, respondentId := rpid, isCompleted := false,
         startedAt := t, completedAt := none } : Response) ∈ db'.responses ∧
      res.firstQuestion = (sortByOrder (questionsOf db fid)).head? ∧
      res.respondentId = rpid) := by
  constructor
  · unfold startResponse
    cases hf : db.forms.find? (fun f => f.id == fid && f.isPublished) with
    | none =>
      simp only [Except.isOk]
      rw [List.find?_eq_none] at hf
      constructor
      · intro h; exact absurd h (by decide)
      · rintro ⟨fm, hm, h1, h2⟩
        exact absurd (by simp [h1, h2] : (fm.id == fid && fm.isPublished) = true) (hf fm hm)
    | some fm =>
      have hm := List.mem_of_find?_eq_some hf
      have hp := List.find?_some hf
      simp only [Bool.and_eq_true, beq_iff_eq] at hp
      simp only [Except.isOk]
      exact ⟨fun _ => ⟨fm, hm, hp.1, hp.2⟩, fun _ => rfl⟩
  · intro db' res hok
    unfold startResponse at hok
    cases hf : db.forms.find? (fun f => f.id == fid && f.isPublished) with
    | none => rw [hf] at hok; exact absurd hok (by simp)
    | some fm =>
      rw [hf] at hok
      have hp := List.find?_some hf
      simp only [Bool.and_eq_true, beq_iff_eq] at hp
      simp only [Except.ok.injEq, Prod.mk.injEq] at hok
      obtain ⟨hdb, hres⟩ := hok
      subst hdb hres
      refine ⟨by simp, ?_, rfl⟩
      show (if _ > 0 then List.head? _ else none) = _
      rw [hp.1]
      split
      · rfl
      · rename_i hlen
        rw [eq_comm, List.head?_eq_none_iff]
        exact List.eq_nil_of_length_eq_zero (by omega)

/-! ## C3: stale-question deletion in updateForm -/

/-- `applyUpdate` never changes the question's id. -/
theorem applyUpdate_id (q : Question) (p : QuestionPayload) :
    (applyUpdate q p).id = q.id := rfl

/-- `applyUpdate` never changes the question's form. -/
theorem applyUpdate_formId (q : Question) (p : QuestionPayload) :
    (applyUpdate q p).formId = q.formId := rfl

/-- The question loop of `updateForm` deletes nothing: every stored question
survives it with its id and form unchanged (updates rewrite in place,
creates append). -/
theorem processQuestions_mem (fid : String) (qps : List QuestionPayload)
    (fresh : List String) (l : List Question) (q : Question) (hq : q ∈ l) :
    ∃ q' ∈ processQuestions fid qps fresh l, q'.id = q.id ∧ q'.formId = q.formId := by
  induction qps generalizing fresh l q with
  | nil => exact ⟨q, hq, rfl, rfl⟩
  | cons p rest ih =>
    unfold processQuestions
    cases hpid : p.id with
    | none => exact ih _ _ _ (List.mem_append_left _ hq)
    | some pid =>
      dsimp only
      by_cases hrec : pid.startsWith "question-" && pid.length > 9
      · rw [if_pos hrec]
        cases hfind : l.find? (fun x => x.id == pid) with
        | none => exact ih _ _ _ hq
        | some _ =>
          obtain ⟨q', hq', h1, h2⟩ := ih fresh
            (l.map (fun x => if x.id == pid then applyUpdate x p else x))
            (if q.id == pid then applyUpdate q p else q)
            (List.mem_map_of_mem _ hq)
          refine ⟨q', hq', ?_, ?_⟩
          · rw [h1]; split <;> simp [applyUpdate_id]
          · rw [h2]; split <;> simp [applyUpdate_formId]
      · rw [if_neg hrec]
        exact ih _ _ _ (List.mem_append_left _ hq)

/-- C3 counterexample.  The claim requires the stale persisted question to be
deleted even when the batch has zero entries recognized as updates.  On a
store holding persisted question `question-ABCDEF` and a batch of one create
entry (kept-id set empty), the question survives `updateForm`. -/
theorem c3_counterexample :
    ((updateForm c3db "u1" "f3" c3payload ["uuid-1"]).toOption.map
      (fun p => p.1.questions.any (fun q => q.id == "question-ABCDEF"))) = some true ∧
    keptIds c3qps = [] := by decide

/-- C3 amended: after `updateForm` with a `questions` batch, when the batch
carries at least one id starting with `question-`, every question of the
form whose id is not among those kept ids is deleted; when the batch carries
none, no question is deleted. -/
theorem c3_amended (db : DB) (uid fid : String) (p : FormUpdatePayload)
    (fresh : List String) (qps : List QuestionPayload) (db' : DB) (f' : Option Form)
    (hq : p.questions = some qps)
    (hok : updateForm db uid fid p fresh = .ok (db', f')) :
    (keptIds qps ≠ [] → ∀ q' ∈ db'.questions, q'.formId = fid →
      q'.id ∈ keptIds qps) ∧
    (keptIds qps = [] → ∀ q ∈ db.questions, q.formId = fid →
      ∃ q' ∈ db'.questions, q'.id = q.id ∧ q'.formId = fid) := by
  unfold updateForm at hok
  cases hf : db.forms.find? (fun f => f.id == fid && f.userId == uid) with
  | none => rw [hf] at hok; exact absurd hok (by simp)
  | some fm =>
    rw [hf, hq] at hok
    simp only [Except.ok.injEq, Prod.mk.injEq] at hok
    obtain ⟨hdb, -⟩ := hok
    subst hdb
    constructor
    · intro hne q' hq' hfid
      simp only [deleteStale] at hq'
      rw [if_pos (by cases hk : keptIds qps with
        | nil => exact absurd hk hne
        | cons a t => simp)] at hq'
      obtain ⟨-, hpred⟩ := List.mem_filter.mp hq'
      simp only [hfid, beq_self_eq_true, Bool.not_true, Bool.false_or] at hpred
      exact List.elem_iff.mp hpred
    · intro hke q hmem hfid
      simp only [deleteStale, hke] at *
      rw [if_neg (by simp [hke])]
      obtain ⟨q', h1, h2, h3⟩ := processQuestions_mem fid qps fresh db.questions q hmem
      exact ⟨q', h1, h2, by rw [h3, hfid]⟩

/-- The store after the witness `updateForm` call on `c3db`. -/
def c3dbAfter : DB :=
  ((updateForm c3db "u1" "f3" c3payload ["uuid-1"]).toOption.map Prod.fst).getD dbEmpty

/-- The reloaded form of the witness `updateForm` call on `c3db`. -/
def c3formAfter : Option Form :=
  ((updateForm c3db "u1" "f3" c3payload ["uuid-1"]).toOption.map Prod.snd).getD none

/-- C3 witness: the amended statement's no-deletion branch at the concrete
create-only batch — the persisted question survives. -/
theorem c3_witness :
    ∃ q' ∈ c3dbAfter.questions, q'.id = "question-ABCDEF" ∧ q'.formId = "f3" :=
  (c3_amended c3db "u1" "f3" c3payload ["uuid-1"] c3qps c3dbAfter c3formAfter
    rfl (by rfl)).2 rfl c3q (by decide) rfl

/-! ## C4: published forms and the zero-question check -/

/-- C4 counterexample.  The claim: no operation can produce a published form
with zero questions.  `createForm` with `isPublished: true` in the payload
creates exactly that: the stored form is published and `questionsOf` is
empty. -/
theorem c4_counterexample :
    (createForm dbEmpty "u1" ⟨"t", none, some true⟩ "f1").2.isPublished = true ∧
    ((createForm dbEmpty "u1" ⟨"t", none, some true⟩ "f1").1.forms.map
      (fun f => (f.id, f.isPublished))) = [("f1", true)] ∧
    questionsOf (createForm dbEmpty "u1" ⟨"t", none, some true⟩ "f1").1 "f1" = [] := by
  decide

/-- C4 amended: `publishForm` itself maintains the invariant — it fails with
400 on a form with zero questions and only ever publishes a form that has at
least one — but `createForm` (and `updateForm`) write `isPublished` straight
from the payload, so the invariant does not hold across all operations. -/
theorem c4_amended (db : DB) (uid fid : String) :
    (∀ db' g, publishForm db uid fid = .ok (db', g) →
      questionsOf db fid ≠ [] ∧ g.isPublished = true) ∧
    (∀ fm ∈ db.forms, fm.id = fid → fm.userId = uid → questionsOf db fid = [] →
      publishForm db uid fid = .error .badRequest) := by
  constructor
  · intro db' g hok
    unfold publishForm at hok
    cases hf : db.forms.find? (fun f => f.id == fid && f.userId == uid) with
    | none => rw [hf] at hok; exact absurd hok (by simp)
    | some fm =>
      rw [hf] at hok
      dsimp only at hok
      by_cases hz : (questionsOf db fid).length == 0
      · rw [if_pos hz] at hok; exact absurd hok (by simp)
      · rw [if_neg hz] at hok
        simp only [Except.ok.injEq, Prod.mk.injEq] at hok
        obtain ⟨-, hg⟩ := hok
        subst hg
        refine ⟨fun hnil => hz (by rw [hnil]; rfl), rfl⟩
  · intro fm hm h1 h2 hz
    unfold publishForm
    cases hf : db.forms.find? (fun f => f.id == fid && f.userId == uid) with
    | none =>
      rw [List.find?_eq_none] at hf
      exact absurd (by simp [h1, h2] : (fm.id == fid && fm.userId == uid) = true) (hf fm hm)
    | some _ =>
      dsimp only
      rw [if_pos (by rw [hz]; rfl)]

/-! ## C9: submitAnswer requires no respondent identifier -/

/-- `isOk` of an ok value. -/
theorem exceptIsOk_ok {α : Type} (x : α) : (Except.ok x : Except Err α).isOk = true := rfl

/-- `isOk` of an error. -/
theorem exceptIsOk_error {α : Type} (e : Err) :
    (Except.error e : Except Err α).isOk = false := rfl

/-- C9: `submitAnswer` succeeds exactly when the response exists and the
question belongs to the response's form — its inputs carry no respondent
identifier, so the success condition mentions none; `getResponse` is the
operation that demands the respondent capability: it is 400 without one and
succeeds only when a stored response matches both the id and the respondent
identifier. -/
theorem c9_theorem (db : DB) (t : Nat) (rid qid : String) (v f : Option String)
    (aid : String) (i rp : String) :
    ((submitAnswer db t rid qid v f aid).isOk = true ↔
      ∃ r, db.responses.find? (fun x => x.id == rid) = some r ∧
        ∃ q ∈ questionsOf db r.formId, q.id = qid) ∧
    getResponse db i none = .error .badRequest ∧
    ((getResponse db i (some rp)).isOk = true ↔
      ∃ r ∈ db.responses, r.id = i ∧ r.respondentId = rp) := by
  refine ⟨?_, rfl, ?_⟩
  · unfold submitAnswer
    cases hr : db.responses.find? (fun x => x.id == rid) with
    | none =>
      dsimp only
      rw [exceptIsOk_error]
      simp only [Bool.false_eq_true, false_iff]
      rintro ⟨r, hfind, -⟩
      exact absurd hfind (by simp)
    | some r0 =>
      dsimp only
      cases hq : (sortByOrder (questionsOf db r0.formId)).find? (fun q => q.id == qid) with
      | none =>
        rw [exceptIsOk_error]
        simp only [Bool.false_eq_true, false_iff]
        rw [List.find?_eq_none] at hq
        rintro ⟨r, hfind, q, hmem, hqid⟩
        injection hfind with hfind
        subst hfind
        exact absurd (by simp [hqid] : (q.id == qid) = true)
          (hq q ((List.perm_insertionSort qle (questionsOf db r0.formId)).mem_iff.mpr hmem))
      | some q0 =>
        rw [exceptIsOk_ok]
        simp only [true_iff]
        refine ⟨r0, rfl, q0, ?_, ?_⟩
        · exact (List.perm_insertionSort qle (questionsOf db r0.formId)).mem_iff.mp
            (List.mem_of_find?_eq_some hq)
        · have := List.find?_some hq
          simpa using this
  · unfold getResponse
    dsimp only
    cases hr : db.responses.find? (fun r => r.id == i && r.respondentId == rp) with
    | none =>
      rw [exceptIsOk_error]
      simp only [Bool.false_eq_true, false_iff]
      rw [List.find?_eq_none] at hr
      rintro ⟨r, hm, h1, h2⟩
      exact absurd (by simp [h1, h2] : (r.id == i && r.respondentId == rp) = true)
        (hr r hm)
    | some r0 =>
      rw [exceptIsOk_ok]
      simp only [true_iff]
      have hp := List.find?_some hr
      simp only [Bool.and_eq_true, beq_iff_eq] at hp
      exact ⟨r0, List.mem_of_find?_eq_some hr, hp.1, hp.2⟩

/-! ## C10: updateForm unpublishes when the payload omits isPublished -/

/-- C10: a successful `updateForm` whose payload does not carry
`isPublished: true` (omitted or falsy) stores `isPublished = false` on the
form — it unpublishes a previously published form rather than leaving the
flag unchanged. -/
theorem c10_theorem (db : DB) (uid fid : String) (p : FormUpdatePayload)
    (fresh : List String) (db' : DB) (f' : Option Form)
    (hok : updateForm db uid fid p fresh = .ok (db', f'))
    (hp : p.isPublished ≠ some true) :
    ∀ g ∈ db'.forms, g.id = fid → g.isPublished = false := by
  unfold updateForm at hok
  cases hf : db.forms.find? (fun f => f.id == fid && f.userId == uid) with
  | none => rw [hf] at hok; exact absurd hok (by simp)
  | some fm =>
    rw [hf] at hok
    dsimp only at hok
    simp only [Except.ok.injEq, Prod.mk.injEq] at hok
    obtain ⟨hdb, -⟩ := hok
    subst hdb
    intro g hg hgid
    obtain ⟨f0, hf0, himg⟩ := List.mem_map.mp hg
    by_cases hid : f0.id == fid
    · rw [if_pos hid] at himg
      subst himg
      show p.isPublished.getD false = false
      cases hb : p.isPublished with
      | none => rfl
      | some b =>
        cases b with
        | false => rfl
        | true => exact absurd hb hp
    · rw [if_neg hid] at himg
      subst himg
      exact absurd hgid (by simpa using hid)

/-- Store of the C10 witness: one published form with one question. -/
def c10db : DB := ⟨[⟨"f4", "F4", none, true, "u1"⟩],
  [⟨"q4", "f4", "Q", none, "text", false, none, 0, none, none⟩], [], [], [], 0⟩

/-- C10 witness body: a title-only update, `isPublished` omitted. -/
def c10payload : FormUpdatePayload := ⟨some "F4x", none, none, none⟩

/-- Store after the witness `updateForm` call on `c10db`. -/
def c10dbAfter : DB :=
  ((updateForm c10db "u1" "f4" c10payload []).toOption.map Prod.fst).getD dbEmpty

/-- Reloaded form of the witness `updateForm` call on `c10db`. -/
def c10formAfter : Option Form :=
  ((updateForm c10db "u1" "f4" c10payload []).toOption.map Prod.snd).getD none

/-- The stored form row after the witness call. -/
def c10g : Form := (c10dbAfter.forms.head?).getD ⟨"", "", none, true, ""⟩

/-- C10 witness: the previously published form `f4` is unpublished by an
update that never mentions `isPublished`. -/
theorem c10_witness : c10g.isPublished = false :=
  c10_theorem c10db "u1" "f4" c10payload [] c10dbAfter c10formAfter (by rfl)
    (by decide) c10g (by decide) (by decide)

/-! ## C7: completed responses carry a completion timestamp -/

/-- Invariant of reachable stores: every response started no later than the
store clock, and a completed response carries a completion timestamp no
earlier than its start. -/
theorem reach_resp_inv (db : DB) (h : Reach db) :
    ∀ r ∈ db.responses, r.startedAt ≤ db.now ∧
      (r.isCompleted = true → r.completedAt.isSome = true ∧
        r.startedAt ≤ r.completedAt.getD 0) := by
  induction h with
  | init forms questions visits t => intro r hr; simp at hr
  | start db t fid rid rpid hreach hle ih =>
    unfold startStep
    cases hs : startResponse db t fid rid rpid with
    | error e => exact ih
    | ok pr =>
      obtain ⟨db', res⟩ := pr
      unfold startResponse at hs
      cases hf : db.forms.find? (fun f => f.id == fid && f.isPublished) with
      | none => rw [hf] at hs; exact absurd hs (by simp)
      | some fm =>
        rw [hf] at hs
        dsimp only at hs
        simp only [Except.ok.injEq, Prod.mk.injEq] at hs
        obtain ⟨hdb, -⟩ := hs
        rw [← hdb]
        intro r hr
        rcases List.mem_append.mp hr with hm | hm
        · have hi := ih r hm
          exact ⟨le_trans hi.1 hle, hi.2⟩
        · rw [List.mem_singleton] at hm
          subst hm
          exact ⟨le_refl t, fun hc => by simp at hc⟩
  | submit db t rid qid v f aid hreach hle ih =>
    unfold submitStep
    cases hs : submitAnswer db t rid qid v f aid with
    | error e => exact ih
    | ok pr =>
      obtain ⟨db', res⟩ := pr
      unfold submitAnswer at hs
      cases hr0 : db.responses.find? (fun x => x.id == rid) with
      | none => rw [hr0] at hs; exact absurd hs (by simp)
      | some r0 =>
        rw [hr0] at hs
        dsimp only at hs
        cases hq : (sortByOrder (questionsOf db r0.formId)).find? (fun q => q.id == qid) with
        | none => rw [hq] at hs; exact absurd hs (by simp)
        | some q0 =>
          rw [hq] at hs
          simp only [Except.ok.injEq, Prod.mk.injEq] at hs
          obtain ⟨hdb, -⟩ := hs
          rw [← hdb]
          intro r hr
          by_cases hl : (List.findIdx (fun q => q.id == qid)
              (sortByOrder (questionsOf db r0.formId)) ==
              (sortByOrder (questionsOf db r0.formId)).length - 1) = true
          · rw [if_pos hl] at hr
            obtain ⟨r1, hr1, himg⟩ := List.mem_map.mp hr
            have hi := ih r1 hr1
            by_cases hid : (r1.id == rid) = true
            · rw [if_pos hid] at himg
              subst himg
              exact ⟨le_trans hi.1 hle, fun _ => ⟨rfl, le_trans hi.1 hle⟩⟩
            · rw [if_neg hid] at himg
              subst himg
              exact ⟨le_trans hi.1 hle, hi.2⟩
          · rw [if_neg hl] at hr
            have hi := ih r hr
            exact ⟨le_trans hi.1 hle, hi.2⟩

/-- C7: in every store reachable through `startResponse` and `submitAnswer`,
a completed response has a non-null `completedAt` that is no earlier than its
`startedAt`. -/
theorem c7_theorem (db : DB) (h : Reach db) (r : Response) (hr : r ∈ db.responses)
    (hc : r.isCompleted = true) :
    r.completedAt.isSome = true ∧ r.startedAt ≤ r.completedAt.getD 0 :=
  ((reach_resp_inv db h) r hr).2 hc

/-- Initial store of the C7 witness: one published single-question form. -/
def c7db0 : DB := ⟨[⟨"f5", "F5", none, true, "u1"⟩],
  [⟨"q5", "f5", "Q", none, "text", false, none, 0, none, none⟩], [], [], [], 0⟩

/-- C7 witness store after starting a response at time 0. -/
def c7db1 : DB := startStep c7db0 0 "f5" "r5" "rp5"

/-- C7 witness store after answering the only question at time 1 (the
response completes). -/
def c7db2 : DB := submitStep c7db1 1 "r5" "q5" (some "x") none "a5"

/-- The completed response stored in `c7db2`. -/
def c7resp : Response := ⟨"r5", "f5", "rp5", true, 0, some 1⟩

/-- C7 witness: the concrete completed response has `completedAt = some 1`,
no earlier than `startedAt = 0`. -/
theorem c7_witness :
    c7resp.completedAt.isSome = true ∧ c7resp.startedAt ≤ c7resp.completedAt.getD 0 :=
  c7_theorem c7db2
    (Reach.submit c7db1 1 "r5" "q5" (some "x") none "a5"
      (Reach.start c7db0 0 "f5" "r5" "rp5" (Reach.init _ _ _ 0) (by decide))
      (by decide))
    c7resp (by decide) (by decide)

/-! ## C5: answer upsert keeps one answer per (response, question) pair -/

/-- Filtering on the (response, question) pair commutes with a map that
preserves both key columns. -/
theorem filter_pair_map (l : List Answer) (g : Answer → Answer)
    (hg : ∀ a, (g a).responseId = a.responseId ∧ (g a).questionId = a.questionId)
    (rid qid : String) :
    (l.map g).filter (fun a => a.responseId == rid && a.questionId == qid) =
      (l.filter (fun a => a.responseId == rid && a.questionId == qid)).map g := by
  induction l with
  | nil => rfl
  | cons a t ih =>
    simp only [List.map_cons, List.filter_cons, (hg a).1, (hg a).2]
    split
    · simp [ih]
    · simp [ih]

/-- Invariant of reachable stores: at most one answer per
(response, question) pair. -/
theorem reach_answers_inv (db : DB) (h : Reach db) (rid qid : String) :
    (answersFor db rid qid).length ≤ 1 := by
  induction h with
  | init forms questions visits t => simp [answersFor]
  | start db t fid rid1 rpid hreach hle ih =>
    have hans : (startStep db t fid rid1 rpid).answers = db.answers := by
      unfold startStep
      cases hs : startResponse db t fid rid1 rpid with
      | error e => rfl
      | ok pr =>
        obtain ⟨db', res⟩ := pr
        unfold startResponse at hs
        cases hf : db.forms.find? (fun f => f.id == fid && f.isPublished) with
        | none => rw [hf] at hs; exact absurd hs (by simp)
        | some fm =>
          rw [hf] at hs
          dsimp only at hs
          simp only [Except.ok.injEq, Prod.mk.injEq] at hs
          obtain ⟨hdb, -⟩ := hs
          rw [← hdb]
    show ((startStep db t fid rid1 rpid).answers.filter _).length ≤ 1
    rw [hans]
    exact ih
  | submit db t rid0 qid0 v f aid hreach hle ih =>
    unfold submitStep
    cases hs : submitAnswer db t rid0 qid0 v f aid with
    | error e => exact ih
    | ok pr =>
      obtain ⟨db', res⟩ := pr
      unfold submitAnswer at hs
      cases hr0 : db.responses.find? (fun x => x.id == rid0) with
      | none => rw [hr0] at hs; exact absurd hs (by simp)
      | some r0 =>
        rw [hr0] at hs
        dsimp only at hs
        cases hq : (sortByOrder (questionsOf db r0.formId)).find? (fun q => q.id == qid0) with
        | none => rw [hq] at hs; exact absurd hs (by simp)
        | some q0 =>
          rw [hq] at hs
          cases ha : db.answers.find?
              (fun a => a.responseId == rid0 && a.questionId == qid0) with
          | some ex =>
            rw [ha] at hs
            simp only [Except.ok.injEq, Prod.mk.injEq] at hs
            obtain ⟨hdb, -⟩ := hs
            rw [← hdb]
            show ((db.answers.map _).filter _).length ≤ 1
            rw [filter_pair_map db.answers _
              (by intro a; constructor <;> (by_cases hi : (a.id == ex.id) = true <;> simp [hi]))
              rid qid]
            rw [List.length_map]
            exact ih
          | none =>
            rw [ha] at hs
            simp only [Except.ok.injEq, Prod.mk.injEq] at hs
            obtain ⟨hdb, -⟩ := hs
            rw [← hdb]
            show ((db.answers ++ [_]).filter _).length ≤ 1
            rw [List.filter_append]
            by_cases hpair : rid0 = rid ∧ qid0 = qid
            · obtain ⟨h1, h2⟩ := hpair
              subst h1; subst h2
              have hnil : db.answers.filter
                  (fun a => a.responseId == rid0 && a.questionId == qid0) = [] := by
                rw [List.filter_eq_nil_iff]
                rw [List.find?_eq_none] at ha
                exact fun a hm => by simpa using ha a hm
              rw [hnil]
              simp [List.filter_singleton]
            · have hna : List.filter (fun a => a.responseId == rid && a.questionId == qid)
                  [({ id := aid, questionId := qid0, responseId := rid0, value := v,
                      fileUrl := f } : Answer)] = [] := by
                have hcb : (rid0 == rid && qid0 == qid) = false := by
                  by_cases h1 : rid0 = rid
                  · subst h1
                    have h2 : qid0 ≠ qid := fun h2 => hpair ⟨rfl, h2⟩
                    simp [h2]
                  · simp [h1]
                simp [List.filter_singleton, hcb]
              rw [hna, List.append_nil]
              exact ih

/-- A list of length one containing `a` is `[a]`. -/
theorem list_eq_singleton_of_length_one {α : Type} {l : List α} (h1 : l.length = 1)
    {a : α} (ha : a ∈ l) : l = [a] := by
  match l, h1 with
  | [x], _ =>
    rw [List.mem_singleton] at ha
    rw [ha]

/-- C5: after a successful `submitAnswer` on a reachable store, exactly one
answer is stored for the (response, question) pair, and it carries the value
and file url of this most recent call (the upsert overwrites in place, never
duplicates). -/
theorem c5_theorem (db : DB) (h : Reach db) (t : Nat) (rid qid : String)
    (v f : Option String) (aid : String) (db' : DB) (res : SubmitResult)
    (hok : submitAnswer db t rid qid v f aid = .ok (db', res)) :
    (answersFor db' rid qid).length = 1 ∧
    ∀ a ∈ answersFor db' rid qid, a.value = v ∧ a.fileUrl = f := by
  unfold submitAnswer at hok
  cases hr0 : db.responses.find? (fun x => x.id == rid) with
  | none => rw [hr0] at hok; exact absurd hok (by simp)
  | some r0 =>
    rw [hr0] at hok
    dsimp only at hok
    cases hq : (sortByOrder (questionsOf db r0.formId)).find? (fun q => q.id == qid) with
    | none => rw [hq] at hok; exact absurd hok (by simp)
    | some q0 =>
      rw [hq] at hok
      cases ha : db.answers.find? (fun a => a.responseId == rid && a.questionId == qid) with
      | some ex =>
        rw [ha] at hok
        simp only [Except.ok.injEq, Prod.mk.injEq] at hok
        obtain ⟨hdb, -⟩ := hok
        rw [← hdb]
        have hexp := List.find?_some ha
        have hexm := List.mem_of_find?_eq_some ha
        have hexf : ex ∈ answersFor db rid qid := List.mem_filter.mpr ⟨hexm, hexp⟩
        have hlen : (answersFor db rid qid).length = 1 :=
          Nat.le_antisymm (reach_answers_inv db h rid qid) (List.length_pos_of_mem hexf)
        have hsing : answersFor db rid qid = [ex] :=
          list_eq_singleton_of_length_one hlen hexf
        simp only [answersFor]
        rw [filter_pair_map db.answers _
          (by intro a; constructor <;> (by_cases hi : (a.id == ex.id) = true <;> simp [hi]))
          rid qid]
        rw [show db.answers.filter (fun a => a.responseId == rid && a.questionId == qid) =
          answersFor db rid qid from rfl, hsing]
        constructor
        · rfl
        · intro a hmem
          simp only [List.map_singleton, List.mem_singleton, beq_self_eq_true,
            if_pos] at hmem
          subst hmem
          exact ⟨rfl, rfl⟩
      | none =>
        rw [ha] at hok
        simp only [Except.ok.injEq, Prod.mk.injEq] at hok
        obtain ⟨hdb, -⟩ := hok
        rw [← hdb]
        have hnil : db.answers.filter
            (fun a => a.responseId == rid && a.questionId == qid) = [] := by
          rw [List.filter_eq_nil_iff]
          rw [List.find?_eq_none] at ha
          exact fun a hm => by simpa using ha a hm
        simp only [answersFor]
        rw [List.filter_append, hnil, List.nil_append]
        constructor
        · simp [List.filter_singleton]
        · intro a hmem
          simp only [List.filter_singleton, beq_self_eq_true, Bool.and_self,
            cond_true, List.mem_singleton] at hmem
          subst hmem
          exact ⟨rfl, rfl⟩

/-- Initial store of the C5 witness: a published two-question form. -/
def c5db0 : DB := ⟨[⟨"f6", "F6", none, true, "u1"⟩],
  [⟨"q6", "f6", "Q6", none, "text", false, none, 0, none, none⟩,
   ⟨"q7", "f6", "Q7", none, "text", false, none, 1, none, none⟩], [], [], [], 0⟩

/-- C5 witness store after starting a response. -/
def c5db1 : DB := startStep c5db0 0 "f6" "r6" "rp6"

/-- C5 witness store after a first answer "first" to q6. -/
def c5db2 : DB := submitStep c5db1 1 "r6" "q6" (some "first") none "a6"

/-- C5 witness store after re-submitting q6 with "second". -/
def c5db3 : DB :=
  ((submitAnswer c5db2 2 "r6" "q6" (some "second") none "a7").toOption.map Prod.fst).getD dbEmpty

/-- Payload of the re-submission in the C5 witness. -/
def c5res : SubmitResult :=
  ((submitAnswer c5db2 2 "r6" "q6" (some "second") none "a7").toOption.map Prod.snd).getD
    ⟨⟨"", "", "", none, none⟩, none, false⟩

/-- C5 witness: after two submissions for the same pair, one stored answer
remains and it holds the latest value. -/
theorem c5_witness :
    (answersFor c5db3 "r6" "q6").length = 1 ∧
    (answersFor c5db3 "r6" "q6").map (fun a => (a.value, a.fileUrl)) =
      [(some "second", none)] :=
  ⟨(c5_theorem c5db2
      (Reach.submit c5db1 1 "r6" "q6" (some "first") none "a6"
        (Reach.start c5db0 0 "f6" "r6" "rp6" (Reach.init _ _ _ 0) (by decide))
        (by decide))
      2 "r6" "q6" (some "second") none "a7" c5db3 c5res (by rfl)).1,
   by decide⟩

example : sortByOrder [] = [] := rfl

/-! ## C8: analytics formulas -/

/-- C8: a successful `getFormAnalytics` reports total responses, a completion
rate that is 0 on zero responses and otherwise completed-over-total times 100
rounded to two decimals, and, for each question in ascending order, the
answer count and a drop-off rate of (first-question answers minus this
question's answers) over first-question answers times 100, 0 when the first
question has zero answers. -/
theorem c8_theorem (db : DB) (uid fid : String) (res : Analytics)
    (hok : getFormAnalytics db uid fid = .ok res) :
    res.responses = (db.responses.filter (fun r => r.formId == fid)).length ∧
    (res.responses = 0 → res.completionRate = 0) ∧
    (res.responses ≠ 0 → res.completionRate = roundTo2
      ((((db.responses.filter (fun r => r.formId == fid)).filter
          (fun r => r.isCompleted)).length : ℚ) / (res.responses : ℚ) * 100)) ∧
    ∀ i : Nat, (res.questions.get? i).map (fun s => (s.responses, s.dropoffRate)) =
      ((sortByOrder (questionsOf db fid)).get? i).map (fun q =>
        (answerCount db q.id,
         if 0 < ((sortByOrder (questionsOf db fid)).head?.map
             (fun q0 => answerCount db q0.id)).getD 0 then
           ((((sortByOrder (questionsOf db fid)).head?.map
               (fun q0 => answerCount db q0.id)).getD 0 : ℚ) - (answerCount db q.id : ℚ)) /
             (((sortByOrder (questionsOf db fid)).head?.map
               (fun q0 => answerCount db q0.id)).getD 0 : ℚ) * 100
         else 0)) := by
  unfold getFormAnalytics at hok
  cases hf : db.forms.find? (fun f => f.id == fid && f.userId == uid) with
  | none => rw [hf] at hok; exact absurd hok (by simp)
  | some fm =>
    rw [hf] at hok
    dsimp only at hok
    simp only [Except.ok.injEq] at hok
    subst hok
    refine ⟨rfl, ?_, ?_, ?_⟩
    · intro h0
      dsimp only at h0 ⊢
      rw [if_neg (by omega)]
      show roundTo2 0 = 0
      norm_num [roundTo2]
    · intro h0
      dsimp only at h0 ⊢
      rw [if_pos (by omega)]
    · intro i
      cases hqs : sortByOrder (questionsOf db fid) with
      | nil => simp
      | cons q0 qt =>
        dsimp only
        rw [List.get?_map, Option.map_map]
        simp only [List.head?]
        rfl

/-- C8 witness store: one published form, 4 responses of which 2 completed,
2 answers to the only question. -/
def c8db : DB := ⟨[⟨"f8", "F8", none, true, "u1"⟩],
  [⟨"q8", "f8", "Q8", none, "text", false, none, 0, none, none⟩],
  [⟨"r1", "f8", "p1", true, 0, some 1⟩, ⟨"r2", "f8", "p2", true, 0, some 1⟩,
   ⟨"r3", "f8", "p3", false, 0, none⟩, ⟨"r4", "f8", "p4", false, 0, none⟩],
  [⟨"a1", "q8", "r1", some "x", none⟩, ⟨"a2", "q8", "r2", some "y", none⟩],
  [], 0⟩

/-- The single question of `c8db`. -/
def c8q : Question := ⟨"q8", "f8", "Q8", none, "text", false, none, 0, none, none⟩

/-- The analytics payload `getFormAnalytics` returns on `c8db`. -/
def c8resLit : Analytics := ⟨0, 4, 50, [⟨"q8", "Q8", "text", 2, 0⟩]⟩

/-- Evaluation of `getFormAnalytics` on the witness store. -/
theorem c8ok : getFormAnalytics c8db "u1" "f8" = .ok c8resLit := by
  unfold getFormAnalytics
  rw [show c8db.forms.find? (fun f => f.id == "f8" && f.userId == "u1") =
    some ⟨"f8", "F8", none, true, "u1"⟩ from rfl]
  dsimp only
  rw [show ((c8db.responses.filter (fun r => r.formId == "f8")).filter
    (fun r => r.isCompleted)).length = 2 from rfl]
  rw [show (c8db.responses.filter (fun r => r.formId == "f8")).length = 4 from rfl]
  rw [show sortByOrder (questionsOf c8db "f8") = [c8q] from rfl]
  dsimp only
  rw [show answerCount c8db c8q.id = 2 from rfl]
  rw [if_pos (by norm_num)]
  simp only [List.map_singleton]
  rw [show answerCount c8db c8q.id = 2 from rfl]
  rw [show (List.filter (fun v => v.formId == "f8") c8db.visits).length = 0 from rfl]
  rw [if_pos (by norm_num : (2 : Nat) > 0)]
  rw [Except.ok.injEq]
  show (⟨0, 4, roundTo2 (((2 : ℕ) : ℚ) / ((4 : ℕ) : ℚ) * 100),
    [⟨"q8", "Q8", "text", 2,
      (((2 : ℕ) : ℚ) - ((2 : ℕ) : ℚ)) / ((2 : ℕ) : ℚ) * 100⟩]⟩ : Analytics) = c8resLit
  unfold c8resLit
  norm_num [roundTo2]

/-- C8 witness: 4 responses with 2 completed yield completionRate 50.00. -/
theorem c8_witness :
    c8resLit.completionRate = roundTo2
      ((((c8db.responses.filter (fun r => r.formId == "f8")).filter
          (fun r => r.isCompleted)).length : ℚ) / (c8resLit.responses : ℚ) * 100) ∧
    c8resLit.completionRate = 50 :=
  ⟨(c8_theorem c8db "u1" "f8" c8resLit c8ok).2.2.1 (by decide), rfl⟩

/-! ## C6: question deletion compacts the order sequence -/

/-- On a list whose orders read `a, a+1, ...`, keeping the orders strictly
above `k` is dropping the first `k + 1 - a` entries. -/
theorem filter_gt_eq_drop (s : List Question) (a m k : Nat)
    (h : s.map (fun q => q.order) = (List.range' a m).map Int.ofNat) :
    s.filter (fun q => Int.ofNat k < q.order) = s.drop (k + 1 - a) := by
  induction s generalizing a m with
  | nil => simp
  | cons q t ih =>
    cases m with
    | zero => simp at h
    | succ m' =>
      rw [List.range'_succ, List.map_cons, List.map_cons] at h
      simp only [List.cons.injEq] at h
      obtain ⟨hq, ht⟩ := h
      by_cases hk : k < a
      · have h0 : k + 1 - a = 0 := by omega
        rw [h0, List.drop_zero, List.filter_cons,
          if_pos (by simp [hq]; exact_mod_cast hk)]
        have := ih (a + 1) m' ht
        rw [show k + 1 - (a + 1) = 0 from by omega, List.drop_zero] at this
        rw [this]
      · rw [List.filter_cons, if_neg (by simp [hq]; omega)]
        have := ih (a + 1) m' ht
        rw [show k + 1 - (a + 1) = k - a from by omega] at this
        rw [this, show k + 1 - a = (k - a) + 1 from by omega, List.drop_succ_cons]

/-- Two sorted permutations of each other with duplicate-free orders are
equal. -/
theorem eq_of_perm_sorted_nodup : ∀ (l₁ l₂ : List Question), l₁.Perm l₂ →
    l₁.Sorted qle → l₂.Sorted qle → (l₁.map (fun q => q.order)).Nodup → l₁ = l₂ := by
  intro l₁
  induction l₁ with
  | nil => intro l₂ hp _ _ _; exact hp.nil_eq
  | cons a t ih =>
    intro l₂ hp hs₁ hs₂ hnd
    cases l₂ with
    | nil => exact absurd hp.length_eq (by simp)
    | cons b t₂ =>
      have hab : a = b := by
        by_contra hne
        have hat2 : a ∈ t₂ := by
          have h0 : a ∈ b :: t₂ := hp.mem_iff.mp (List.mem_cons_self a t)
          rcases List.mem_cons.mp h0 with h | h
          · exact absurd h hne
          · exact h
        have hbt : b ∈ t := by
          have h0 : b ∈ a :: t := hp.mem_iff.mpr (List.mem_cons_self b t₂)
          rcases List.mem_cons.mp h0 with h | h
          · exact absurd h.symm hne
          · exact h
        have h1 : a.order ≤ b.order := List.rel_of_sorted_cons hs₁ b hbt
        have h2 : b.order ≤ a.order := List.rel_of_sorted_cons hs₂ a hat2
        have heq : a.order = b.order := le_antisymm h1 h2
        have hmem : a.order ∈ t.map (fun q => q.order) := by
          rw [heq]; exact List.mem_map_of_mem _ hbt
        rw [List.map_cons, List.nodup_cons] at hnd
        exact hnd.1 hmem
      subst hab
      have hp' := hp.cons_inv
      rw [List.map_cons, List.nodup_cons] at hnd
      rw [ih t₂ hp' hs₁.of_cons hs₂.of_cons hnd.2]

/-- On a dense-ordered sorted list, the question with order `j` sits at
position `j`. -/
theorem pos_of_order (s : List Question)
    (h : s.map (fun q => q.order) = (List.range s.length).map Int.ofNat)
    (q : Question) (hq : q ∈ s) (j : Nat) (hj : q.order = Int.ofNat j) :
    s.get? j = some q := by
  have hjlen : j < s.length := by
    have h1 : q.order ∈ s.map (fun q => q.order) := List.mem_map_of_mem _ hq
    rw [h, hj] at h1
    obtain ⟨c, hc, hcast⟩ := List.mem_map.mp h1
    rw [List.mem_range] at hc
    have : c = j := Int.ofNat_inj.mp hcast
    omega
  cases hsj : s.get? j with
  | none => exact absurd (List.get?_eq_none.mp hsj) (by omega)
  | some y =>
    have hym : y ∈ s := List.get?_mem hsj
    have hyo : y.order = Int.ofNat j := by
      have h2 : (s.map (fun q => q.order)).get? j = some y.order := by
        rw [List.get?_map, hsj]; rfl
      rw [h, List.get?_map, List.get?_eq_getElem?, List.getElem?_range hjlen] at h2
      injection h2 with h2
      exact h2.symm
    have hnd : (s.map (fun q => q.order)).Nodup := by
      rw [h]
      exact (List.nodup_range _).map (fun x y hxy => Int.ofNat_inj.mp hxy)
    have hyq : y = q := List.inj_on_of_nodup_map hnd hym hq (by rw [hyo, hj])
    exact congrArg some hyq

/-- The composed effect of `setOrdersFrom` on one stored question (proof
device: `setOrdersFrom` is a map of this function). -/
def adjust (base : Int) (i : Nat) (rem : List Question) (x : Question) : Question :=
  match rem with
  | [] => x
  | q :: t => adjust base (i + 1) t (bump base i q.id x)

/-- `bump` never changes the id. -/
theorem bump_id (base : Int) (i : Nat) (tid : String) (x : Question) :
    (bump base i tid x).id = x.id := by
  unfold bump; split <;> rfl

/-- `bump` never changes the form. -/
theorem bump_formId (base : Int) (i : Nat) (tid : String) (x : Question) :
    (bump base i tid x).formId = x.formId := by
  unfold bump; split <;> rfl

/-- `adjust` never changes the id. -/
theorem adjust_id (base : Int) (i : Nat) (rem : List Question) (x : Question) :
    (adjust base i rem x).id = x.id := by
  induction rem generalizing i x with
  | nil => rfl
  | cons q t ih => rw [adjust, ih, bump_id]

/-- `adjust` never changes the form. -/
theorem adjust_formId (base : Int) (i : Nat) (rem : List Question) (x : Question) :
    (adjust base i rem x).formId = x.formId := by
  induction rem generalizing i x with
  | nil => rfl
  | cons q t ih => rw [adjust, ih, bump_formId]

/-- The reorder loop is a map of `adjust` over the stored questions. -/
theorem setOrdersFrom_eq_map (base : Int) (i : Nat) (rem l : List Question) :
    setOrdersFrom base i rem l = l.map (adjust base i rem) := by
  induction rem generalizing i l with
  | nil => simp [setOrdersFrom, adjust]
  | cons q t ih =>
    rw [setOrdersFrom, ih, List.map_map]
    rfl

/-- A question whose id is absent from the remaining list is untouched. -/
theorem adjust_of_not_mem (base : Int) (i : Nat) (rem : List Question)
    (x : Question) (hx : x.id ∉ rem.map (fun q => q.id)) :
    adjust base i rem x = x := by
  induction rem generalizing i with
  | nil => rfl
  | cons q t ih =>
    rw [List.map_cons, List.mem_cons] at hx
    push_neg at hx
    rw [adjust, show bump base i q.id x = x from by
      unfold bump; rw [if_neg (by simpa using hx.1)]]
    exact ih _ hx.2

/-- The question matching position `j` of the (duplicate-free) remaining
list gets order `base + (i + j)`. -/
theorem adjust_of_get (base : Int) (i : Nat) (rem : List Question)
    (x : Question) (j : Nat) (q : Question) (hj : rem.get? j = some q)
    (hqx : q.id = x.id) (hnd : (rem.map (fun y => y.id)).Nodup) :
    adjust base i rem x = { x with order := base + (i + j : Nat) } := by
  induction rem generalizing i j x with
  | nil => simp at hj
  | cons q0 t ih =>
    rw [List.map_cons, List.nodup_cons] at hnd
    cases j with
    | zero =>
      injection hj with hj
      subst hj
      rw [adjust, show bump base i q0.id x = { x with order := base + i } from by
        unfold bump; rw [if_pos (by simp [hqx])]]
      rw [adjust_of_not_mem _ _ _ _ (by
        show x.id ∉ t.map (fun y => y.id)
        rw [← hqx]
        exact hnd.1)]
      simp
    | succ j' =>
      rw [List.get?_cons_succ] at hj
      have hq0x : ¬(x.id == q0.id) = true := by
        have : q.id ∈ t.map (fun y => y.id) :=
          List.mem_map_of_mem _ (List.get?_mem hj)
        simp only [beq_iff_eq]
        intro hxe
        exact hnd.1 (by rw [← hxe, ← hqx]; exact this)
      rw [adjust, show bump base i q0.id x = x from by
        unfold bump; rw [if_neg hq0x]]
      rw [ih _ _ _ hj hqx hnd.2]
      congr 1
      omega

/-- On a dense-ordered list every order is a natural below the length. -/
theorem order_nat (s : List Question)
    (h : s.map (fun q => q.order) = (List.range s.length).map Int.ofNat)
    (q : Question) (hq : q ∈ s) : ∃ j, j < s.length ∧ q.order = Int.ofNat j := by
  have h1 : q.order ∈ s.map (fun q => q.order) := List.mem_map_of_mem _ hq
  rw [h] at h1
  obtain ⟨c, hc, hcast⟩ := List.mem_map.mp h1
  exact ⟨c, List.mem_range.mp hc, hcast.symm⟩

/-- Filtering commutes with a map that preserves the predicate. -/
theorem filter_map_of_pred (l : List Question) (g : Question → Question)
    (p : Question → Bool) (hg : ∀ x, p (g x) = p x) :
    (l.map g).filter p = (l.filter p).map g := by
  induction l with
  | nil => rfl
  | cons a t ih =>
    simp only [List.map_cons, List.filter_cons, hg a]
    split
    · simp [ih]
    · simp [ih]

/-- Removing the unique question with a given id shortens the list by
exactly one. -/
theorem length_filter_ne (l : List Question) (qid : String)
    (hnd : (l.map (fun q => q.id)).Nodup) (x : Question) (hx : x ∈ l)
    (hxid : x.id = qid) :
    (l.filter (fun q => !(q.id == qid))).length = l.length - 1 := by
  induction l with
  | nil => simp at hx
  | cons a t ih =>
    rw [List.map_cons, List.nodup_cons] at hnd
    by_cases ha : a.id = qid
    · rw [List.filter_cons, if_neg (by simp [ha])]
      rw [List.filter_eq_self.mpr ?_]
      · simp
      · intro y hy
        have hne : y.id ≠ qid := fun hq2 => hnd.1 (by
          rw [ha, ← hq2]
          exact List.mem_map_of_mem _ hy)
        simp [hne]
    · rw [List.filter_cons, if_pos (by simp [ha])]
      have hxt : x ∈ t := by
        rcases List.mem_cons.mp hx with h | h
        · exact absurd (h ▸ hxid) ha
        · exact h
      have hlen : 0 < t.length := List.length_pos_of_mem hxt
      simp only [List.length_cons]
      rw [ih hnd.2 hxt]
      omega

/-- C6: on a form whose question orders are the dense sequence 0..N-1,
`deleteQuestion` removes the target, leaves every other question in place
with its order decremented by one exactly when it exceeded the deleted
order (relative order is preserved since the adjustment is monotone), and
the form keeps N-1 questions, so the remaining orders are 0..N-2. -/
theorem c6_theorem (db : DB) (uid fid qid : String) (ex : Question) (db' : DB)
    (hids : (db.questions.map (fun q => q.id)).Nodup)
    (hfind : db.questions.find? (fun q => q.id == qid && q.formId == fid) = some ex)
    (hdense : (sortByOrder (questionsOf db fid)).map (fun q => q.order) =
      (List.range (sortByOrder (questionsOf db fid)).length).map Int.ofNat)
    (hok : deleteQuestion db uid fid qid = .ok db') :
    (∀ q' ∈ db'.questions, q'.id ≠ qid) ∧
    (∀ q ∈ db.questions, q.formId = fid → q.id ≠ qid →
      ∃ q' ∈ db'.questions, q'.id = q.id ∧
        q'.order = (if ex.order < q.order then q.order - 1 else q.order)) ∧
    (questionsOf db' fid).length = (questionsOf db fid).length - 1 := by
  unfold deleteQuestion at hok
  cases hf : db.forms.find? (fun f => f.id == fid && f.userId == uid) with
  | none => rw [hf] at hok; exact absurd hok (by simp)
  | some fm =>
    rw [hf] at hok
    dsimp only at hok
    rw [hfind] at hok
    simp only [Except.ok.injEq] at hok
    subst hok
    have hexp := List.find?_some hfind
    simp only [Bool.and_eq_true, beq_iff_eq] at hexp
    obtain ⟨hexid, hexfid⟩ := hexp
    have hexm : ex ∈ db.questions := List.mem_of_find?_eq_some hfind
    have hperm : (sortByOrder (questionsOf db fid)).Perm (questionsOf db fid) :=
      List.perm_insertionSort qle _
    have hsorted : (sortByOrder (questionsOf db fid)).Sorted qle :=
      List.sorted_insertionSort qle _
    set s := sortByOrder (questionsOf db fid) with hs
    have hexs : ex ∈ s :=
      hperm.mem_iff.mpr (List.mem_filter.mpr ⟨hexm, by simp [hexfid]⟩)
    obtain ⟨kn, hknlen, hkn⟩ := order_nat s hdense ex hexs
    have hqf_nodup : ((questionsOf db fid).map (fun q => q.id)).Nodup :=
      ((List.filter_sublist db.questions).map _).nodup hids
    have hs_nodup : (s.map (fun q => q.id)).Nodup :=
      ((hperm.map _).nodup_iff).mpr hqf_nodup
    have hor_nodup : (s.map (fun q => q.order)).Nodup := by
      rw [hdense]
      exact (List.nodup_range _).map (fun a b hab => Int.ofNat_inj.mp hab)
    have hdrop_sorted : (s.drop (kn + 1)).Sorted qle :=
      List.Pairwise.sublist (List.drop_sublist _ _) hsorted
    have hrem : sortByOrder ((db.questions.filter (fun q => !(q.id == qid))).filter
        (fun q => q.formId == fid && ex.order < q.order)) = s.drop (kn + 1) := by
      have hp1 : ((db.questions.filter (fun q => !(q.id == qid))).filter
          (fun q => q.formId == fid && ex.order < q.order)) =
          (questionsOf db fid).filter (fun q => ex.order < q.order) := by
        rw [List.filter_filter]
        rw [show questionsOf db fid = db.questions.filter (fun q => q.formId == fid)
          from rfl, List.filter_filter]
        apply List.filter_congr
        intro x hx
        by_cases hxid : x.id = qid
        · have hxe : x = ex := List.inj_on_of_nodup_map hids hx hexm
            (by rw [hxid, hexid])
          subst hxe
          simp [lt_irrefl]
        · simp [hxid, Bool.and_comm]
      have hp2 : ((questionsOf db fid).filter (fun q => ex.order < q.order)).Perm
          (s.filter (fun q => ex.order < q.order)) := (hperm.symm).filter _
      have hp3 : s.filter (fun q => ex.order < q.order) = s.drop (kn + 1) := by
        have := filter_gt_eq_drop s 0 s.length kn (by
          rw [hdense, List.range_eq_range'])
        rw [Nat.sub_zero] at this
        rw [← this]
        apply List.filter_congr
        intro x hx
        rw [hkn]
      have hchain : (((db.questions.filter (fun q => !(q.id == qid))).filter
          (fun q => q.formId == fid && ex.order < q.order))).Perm (s.drop (kn + 1)) := by
        rw [hp1, ← hp3]
        exact hp2
      have hfull := (List.perm_insertionSort qle
        ((db.questions.filter (fun q => !(q.id == qid))).filter
          (fun q => q.formId == fid && ex.order < q.order))).trans hchain
      apply eq_of_perm_sorted_nodup
      · exact hfull
      · exact List.sorted_insertionSort qle _
      · exact hdrop_sorted
      · have h1 : ((s.drop (kn + 1)).map (fun q => q.order)).Nodup := by
          rw [List.map_drop]
          exact (List.drop_sublist _ _).nodup hor_nodup
        exact (hfull.map (fun q => q.order)).nodup_iff.mpr h1
    refine ⟨?_, ?_, ?_⟩
    · intro q' hq'
      dsimp only at hq'
      rw [hrem, setOrdersFrom_eq_map] at hq'
      obtain ⟨x, hx, himg⟩ := List.mem_map.mp hq'
      have hxne : x.id ≠ qid := by
        have h0 := (List.mem_filter.mp hx).2
        simpa using h0
      rw [← himg, adjust_id]
      exact hxne
    · intro q hqmem hqfid hqid
      dsimp only
      rw [hrem, setOrdersFrom_eq_map]
      have hq1 : q ∈ db.questions.filter (fun x => !(x.id == qid)) :=
        List.mem_filter.mpr ⟨hqmem, by simpa using hqid⟩
      by_cases hlt : ex.order < q.order
      · have hqs : q ∈ s := hperm.mem_iff.mpr
          (List.mem_filter.mpr ⟨hqmem, by simp [hqfid]⟩)
        obtain ⟨jq, hjlen, hjq⟩ := order_nat s hdense q hqs
        have hknjq : kn < jq := by
          rw [hkn, hjq] at hlt
          exact Int.ofNat_lt.mp hlt
        have hget : s.get? jq = some q := pos_of_order s hdense q hqs jq hjq
        have hdropget : (s.drop (kn + 1)).get? (jq - (kn + 1)) = some q := by
          rw [List.get?_drop, show kn + 1 + (jq - (kn + 1)) = jq from by omega]
          exact hget
        have hnd_drop : ((s.drop (kn + 1)).map (fun y => y.id)).Nodup :=
          ((List.drop_sublist _ _).map _).nodup hs_nodup
        refine ⟨adjust ex.order 0 (s.drop (kn + 1)) q,
          List.mem_map_of_mem _ hq1, adjust_id _ _ _ _, ?_⟩
        rw [adjust_of_get ex.order 0 (s.drop (kn + 1)) q (jq - (kn + 1)) q
          hdropget rfl hnd_drop]
        rw [if_pos hlt]
        show ex.order + ((0 + (jq - (kn + 1)) : Nat) : Int) = q.order - 1
        rw [hkn, hjq]
        simp only [Nat.zero_add, Int.ofNat_eq_natCast]
        omega
      · have hnotm : q.id ∉ (s.drop (kn + 1)).map (fun y => y.id) := by
          intro hmm
          obtain ⟨y, hy, hyid⟩ := List.mem_map.mp hmm
          have hys : y ∈ s := (List.drop_sublist _ _).subset hy
          have hydb : y ∈ db.questions := List.mem_of_mem_filter (hperm.mem_iff.mp hys)
          have hyq : y = q := List.inj_on_of_nodup_map hids hydb hqmem hyid
          obtain ⟨m, hm⟩ := List.mem_iff_get?.mp hy
          have hsm : s.get? (kn + 1 + m) = some y := by
            rw [← List.get?_drop]
            exact hm
          have hlb : kn + 1 + m < s.length := by
            by_contra hge
            rw [List.get?_eq_none.mpr (by omega)] at hsm
            exact absurd hsm (by simp)
          have hyo : y.order = Int.ofNat (kn + 1 + m) := by
            have h2 : (s.map (fun x => x.order)).get? (kn + 1 + m) = some y.order := by
              rw [List.get?_map, hsm]; rfl
            rw [hdense, List.get?_map, List.get?_eq_getElem?,
              List.getElem?_range hlb] at h2
            injection h2 with h2
            exact h2.symm
          apply hlt
          rw [hkn, ← hyq, hyo]
          exact Int.ofNat_lt.mpr (by omega)
        refine ⟨adjust ex.order 0 (s.drop (kn + 1)) q,
          List.mem_map_of_mem _ hq1, adjust_id _ _ _ _, ?_⟩
        rw [adjust_of_not_mem _ _ _ _ hnotm, if_neg hlt]
    · simp only [questionsOf]
      rw [hrem, setOrdersFrom_eq_map]
      rw [filter_map_of_pred _ _ _ (fun x => by rw [adjust_formId])]
      rw [List.length_map]
      rw [List.filter_filter]
      have hsw : (db.questions.filter (fun a => (a.formId == fid) && !(a.id == qid))) =
          ((db.questions.filter (fun q => q.formId == fid)).filter
            (fun q => !(q.id == qid))) := by
        rw [List.filter_filter]
        apply List.filter_congr
        intro x hx
        rw [Bool.and_comm]
      rw [hsw]
      exact length_filter_ne (db.questions.filter (fun q => q.formId == fid)) qid
        hqf_nodup ex (List.mem_filter.mpr ⟨hexm, by simp [hexfid]⟩) hexid

/-- C6 witness store: the spec scenario, four questions at orders
[0,1,2,3]. -/
def c6db : DB := ⟨[⟨"f7", "F7", none, false, "u1"⟩],
  [⟨"qA", "f7", "A", none, "text", false, none, 0, none, none⟩,
   ⟨"qB", "f7", "B", none, "text", false, none, 1, none, none⟩,
   ⟨"qC", "f7", "C", none, "text", false, none, 2, none, none⟩,
   ⟨"qD", "f7", "D", none, "text", false, none, 3, none, none⟩], [], [], [], 0⟩

/-- The order-1 question deleted in the C6 witness. -/
def c6ex : Question := ⟨"qB", "f7", "B", none, "text", false, none, 1, none, none⟩

/-- The order-3 question observed in the C6 witness. -/
def c6qD : Question := ⟨"qD", "f7", "D", none, "text", false, none, 3, none, none⟩

/-- Store after the witness `deleteQuestion` call. -/
def c6dbAfter : DB := ((deleteQuestion c6db "u1" "f7" "qB").toOption).getD dbEmpty

/-- C6 witness: deleting the order-1 question from orders [0,1,2,3] leaves
the order-3 question at order 2 and three questions on the form. -/
theorem c6_witness :
    (∃ q' ∈ c6dbAfter.questions, q'.id = c6qD.id ∧
      q'.order = (if c6ex.order < c6qD.order then c6qD.order - 1 else c6qD.order)) ∧
    (questionsOf c6dbAfter "f7").length = (questionsOf c6db "f7").length - 1 := by
  have h := c6_theorem c6db "u1" "f7" "qB" c6ex c6dbAfter (by decide) (by decide)
    (by decide) (by rfl)
  exact ⟨h.2.1 c6qD (by decide) (by decide) (by decide), h.2.2⟩
